import Mathlib

/-!
Verification of the aeroscan inventory-audit backend (src/app.py and src/app2.py).

The repository carries two near-duplicate Flask applications.  `app2.py` is the
full rewrite with the live-capture loop; `app.py` is an earlier variant of the
same logic.  Both persist state in three delimited files:

* the code ledger `codigos_encontrados.csv` (header `codigo,tipo`),
* the box registry `caixas_registradas.csv` (header `QRCodes,Barcodes`),
* the box counter `contagem_caixas.txt` (a single integer).

This development embeds the pure content of those functions.  Files are
modelled as `Option (List Row)` where `none` is a missing file and the header,
when present, is simply the first record, exactly as Python's `csv.DictReader`
treats it (it takes the first record as the field names).  Python `set` values
are represented by deduplicated lists; a bare `List String` parameter standing
for a set is an enumeration of it in the (arbitrary) iteration order the
interpreter would produce.  Wall-clock timestamps carried by detection events
and the actual byte-level I/O (including the logged-and-swallowed I/O
exceptions, which leave the modelled state unchanged) are abstracted away.
-/

/- ---------------------------------------------------------------------------
String ordering.  Python `sorted` on `str` compares strings lexicographically
by code point.  Lean's builtin `String.decidableLE` does not reduce in the
kernel, so the same order is defined here directly on the character lists.
--------------------------------------------------------------------------- -/

/-- Lexicographic code-point comparison of character lists, the order Python
uses to compare `str` values. -/
def lexLeB : List Char → List Char → Bool
  | [], _ => true
  | _ :: _, [] => false
  | a :: as, b :: bs => if a = b then lexLeB as bs else decide (a.toNat < b.toNat)

/-- Python string comparison `a <= b`. -/
def strLeB (a b : String) : Bool := lexLeB a.data b.data

/-- The proposition form of `strLeB`, used as the sort relation. -/
def strLe (a b : String) : Prop := strLeB a b = true

instance : DecidableRel strLe := fun a b => instDecidableEqBool (strLeB a b) true

theorem lexLeB_total (a b : List Char) : lexLeB a b = true ∨ lexLeB b a = true := by
  induction a generalizing b with
  | nil => left; rfl
  | cons x xs ih =>
    cases b with
    | nil => right; rfl
    | cons y ys =>
      by_cases hxy : x = y
      · subst hxy
        simp only [lexLeB, if_pos rfl]
        exact ih ys
      · have hyx : y ≠ x := fun h => hxy h.symm
        simp only [lexLeB, if_neg hxy, if_neg hyx, decide_eq_true_eq]
        rcases Nat.lt_trichotomy x.toNat y.toNat with h | h | h
        · left; exact h
        · exact absurd (Char.ext (UInt32.ext h)) hxy
        · right; exact h

theorem lexLeB_trans (a b c : List Char) (hab : lexLeB a b = true) (hbc : lexLeB b c = true) :
    lexLeB a c = true := by
  induction a generalizing b c with
  | nil => rfl
  | cons x xs ih =>
    cases b with
    | nil => simp [lexLeB] at hab
    | cons y ys =>
      cases c with
      | nil => simp [lexLeB] at hbc
      | cons z zs =>
        by_cases hxy : x = y <;> by_cases hyz : y = z
        · subst hxy; subst hyz
          simp only [lexLeB, if_pos rfl] at hab hbc ⊢
          exact ih ys zs hab hbc
        · subst hxy
          simp only [lexLeB, if_pos rfl, if_neg hyz] at hbc ⊢
          exact hbc
        · subst hyz
          simp only [lexLeB, if_neg hxy] at hab ⊢
          exact hab
        · simp only [lexLeB, if_neg hxy, if_neg hyz, decide_eq_true_eq] at hab hbc
          have hxz : x ≠ z := by
            intro h
            subst h
            exact absurd (Nat.lt_trans hab hbc) (Nat.lt_irrefl _)
          simp only [lexLeB, if_neg hxz, decide_eq_true_eq]
          exact Nat.lt_trans hab hbc

theorem lexLeB_antisymm (a b : List Char) (hab : lexLeB a b = true) (hba : lexLeB b a = true) :
    a = b := by
  induction a generalizing b with
  | nil =>
    cases b with
    | nil => rfl
    | cons y ys => simp [lexLeB] at hba
  | cons x xs ih =>
    cases b with
    | nil => simp [lexLeB] at hab
    | cons y ys =>
      by_cases hxy : x = y
      · subst hxy
        simp only [lexLeB, if_pos rfl] at hab hba
        rw [ih ys hab hba]
      · have hyx : y ≠ x := fun h => hxy h.symm
        simp only [lexLeB, if_neg hxy, if_neg hyx, decide_eq_true_eq] at hab hba
        exact absurd (Nat.lt_trans hab hba) (Nat.lt_irrefl _)

instance : IsTotal String strLe := ⟨fun a b => lexLeB_total a.data b.data⟩

instance : IsTrans String strLe := ⟨fun a b c => lexLeB_trans a.data b.data c.data⟩

instance : IsAntisymm String strLe := by
  refine ⟨fun a b hab hba => ?_⟩
  cases a; cases b
  exact congrArg String.mk (lexLeB_antisymm _ _ hab hba)

/-- Python `sorted(l)` for a list of strings. -/
def sortStr (l : List String) : List String := List.insertionSort strLe l

/-- Python `sorted(list(S))` where the set `S` is represented by any list with
the same membership. -/
def sortedSet (l : List String) : List String := sortStr l.dedup

/- ---------------------------------------------------------------------------
Python `'|'.join` and `.split('|')`.
--------------------------------------------------------------------------- -/

/-- Splitting a character list at every bar, Python `s.split('|')` semantics:
the result is never empty and keeps empty segments. -/
def splitByBar : List Char → List (List Char)
  | [] => [[]]
  | c :: rest =>
      match splitByBar rest with
      | [] => [[]]
      | s :: ss => if c = '|' then [] :: s :: ss else (c :: s) :: ss

/-- Python `s.split('|')`. -/
def splitBar (s : String) : List String := (splitByBar s.data).map String.mk

/-- Python `'|'.join(l)`. -/
def joinBar : List String → String
  | [] => ""
  | [s] => s
  | s :: rest => s ++ "|" ++ joinBar rest

/- ---------------------------------------------------------------------------
CSV files as parsed record lists.
--------------------------------------------------------------------------- -/

/-- One record of a two-column CSV file. -/
abbrev Row := String × String

/-- A CSV file on disk: `none` when the file does not exist, otherwise the list
of its records.  The header, when present, is the first record. -/
abbrev CsvFile := Option (List Row)

/-- Field access of `csv.DictReader`: the first record `hd` supplies the field
names and `csvGet hd r k` is `row.get(k)` for a later record `r`. -/
def csvGet (hd r : Row) (k : String) : Option String :=
  if hd.1 = k then some r.1 else if hd.2 = k then some r.2 else none

/-- Python `row.get(k, '')`; `None` and a missing key collapse to `""`, which
has the same truthiness. -/
def csvGetD (hd r : Row) (k : String) : String := (csvGet hd r k).getD ""

/-- Header record written to the code ledger. -/
def ledgerHeader : Row := ( "codigo", "tipo")

/-- Header record written to the box registry. -/
def caixasHeader : Row := ( "QRCodes", "Barcodes")

/- ---------------------------------------------------------------------------
Code ledger (codigos_encontrados.csv): clear, read, append.
The functions below embed clear_codigos_encontrados, read_codigos_encontrados,
load_existing_codes and save_unique_codes, which are textually identical in
app.py and app2.py.
--------------------------------------------------------------------------- -/

/-- Python dict assignment `m[k] = v` on an association list that preserves
insertion order. -/
def upsert (m : List (String × String)) (k v : String) : List (String × String) :=
  if k ∈ m.map Prod.fst then m.map (fun kv => if kv.1 = k then (k, v) else kv)
  else m ++ [(k, v)]

/-- Embeds clear_codigos_encontrados: truncate the ledger to just the header. -/
def clear_codigos_encontrados : CsvFile := some [ledgerHeader]

/-- Embeds read_codigos_encontrados: the set of `codigo` values of the data
records, empty for a missing file; rows with a falsy `codigo` are skipped.  The
resulting Python set is represented by the deduplicated list. -/
def read_codigos_encontrados (f : CsvFile) : List String :=
  match f with
  | none => []
  | some [] => []
  | some (hd :: tl) =>
      (tl.foldl (fun acc r =>
        let c := csvGetD hd r "codigo"
        if c = "" then acc else acc ++ [c]) []).dedup

/-- The loop body of load_existing_codes for one data record. -/
def loadStep (hd : Row) (m : List (String × String)) (r : Row) : List (String × String) :=
  let codigo := csvGetD hd r "codigo"
  let tipo := csvGetD hd r "tipo"
  if codigo = "" then m else upsert m codigo tipo

/-- Embeds load_existing_codes: the `codigo -> tipo` dict read from the ledger,
skipping rows with a falsy `codigo`; later rows overwrite earlier ones exactly
as repeated dict assignment would. -/
def load_existing_codes (f : CsvFile) : List (String × String) :=
  match f with
  | none => []
  | some [] => []
  | some (hd :: tl) => tl.foldl (loadStep hd) []

/-- The QR pass of the merged dict: `merged[q] = 'QR Code'` for truthy q. -/
def mergedQrStep (m : List (String × String)) (q : String) : List (String × String) :=
  if q = "" then m else upsert m q "QR Code"

/-- The barcode pass of the merged dict: append truthy barcodes not already
present. -/
def mergedBcStep (m : List (String × String)) (b : String) : List (String × String) :=
  if b = "" then m
  else if b ∈ m.map Prod.fst then m
  else m ++ [(b, "Barcode")]

/-- The `merged` dict built inside save_unique_codes: every truthy QR payload
maps to "QR Code" (dict assignment, so the QR pass always wins), then every
truthy barcode payload not yet present is appended with "Barcode". -/
def mergedOf (qr_codes barcodes : List String) : List (String × String) :=
  barcodes.foldl mergedBcStep (qr_codes.foldl mergedQrStep [])

/-- Result of save_unique_codes: the returned pair `(num_novos, lista_novos)`
plus the ledger file after the call. -/
structure SaveResult where
  num : Nat
  newList : List String
  file : CsvFile
deriving Repr, DecidableEq

/-- The `to_add` dict of save_unique_codes: merged codes not already present in
the ledger dictionary. -/
def saveAdded (f : CsvFile) (qr_codes barcodes : List String) : List Row :=
  (mergedOf qr_codes barcodes).filter
    (fun ct => decide (ct.1 ∉ (load_existing_codes f).map Prod.fst))

/-- Embeds save_unique_codes: merge the detected codes, drop the ones already
in the ledger, and append the remainder, writing the header first when the file
is missing or empty.  When nothing is to be added the file is not touched. -/
def save_unique_codes (f : CsvFile) (qr_codes barcodes : List String) : SaveResult :=
  let to_add := saveAdded f qr_codes barcodes
  if to_add = [] then { num := 0, newList := [], file := f }
  else
    let base : List Row :=
      match f with
      | none => [ledgerHeader]
      | some [] => [ledgerHeader]
      | some rows => rows
    { num := to_add.length, newList := to_add.map Prod.fst, file := some (base ++ to_add) }

/- ---------------------------------------------------------------------------
Box registry (caixas_registradas.csv) plus counter, app2.py version.
--------------------------------------------------------------------------- -/

/-- The parse `tuple(sorted(qrs.split('|'))) if qrs else tuple()` used by
caixa_exists on a stored registry cell. -/
def parseSorted (s : String) : List String :=
  if s = "" then [] else sortStr (splitBar s)

/-- Registry plus counter state.  The counter file read of register_caixa
treats a missing or unparsable contagem file as zero; `count` holds the value
that read yields. -/
structure RegState where
  file : CsvFile
  count : Nat
deriving Repr, DecidableEq

/-- Embeds caixa_exists of app2.py: scan the registry for a record whose sorted
QR tuple and sorted barcode tuple both equal the sorted inputs. -/
def caixa_exists (f : CsvFile) (qr_codes barcodes : List String) : Bool :=
  match f with
  | none => false
  | some [] => false
  | some (hd :: tl) =>
      let nova_qrs := sortStr qr_codes
      let nova_bcs := sortStr barcodes
      tl.any (fun r =>
        decide (parseSorted (csvGetD hd r "QRCodes") = nova_qrs) &&
        decide (parseSorted (csvGetD hd r "Barcodes") = nova_bcs))

/-- Result of register_caixa: the returned pair `(isNew, total)` plus the
registry state after the call. -/
structure RegResult where
  isNew : Bool
  total : Nat
  state : RegState
deriving Repr, DecidableEq

/-- Embeds register_caixa of app2.py: no-op with the current counter when the
sorted pair already exists, otherwise append the bar-joined sorted pair (with a
header when the file is missing or empty) and bump the counter. -/
def register_caixa (s : RegState) (qr_codes barcodes : List String) : RegResult :=
  let nova_qrs := sortStr qr_codes
  let nova_bcs := sortStr barcodes
  if caixa_exists s.file nova_qrs nova_bcs then
    { isNew := false, total := s.count, state := s }
  else
    let newRow : Row := (joinBar nova_qrs, joinBar nova_bcs)
    let base : List Row :=
      match s.file with
      | none => [caixasHeader]
      | some [] => [caixasHeader]
      | some rows => rows
    { isNew := true, total := s.count + 1,
      state := { file := some (base ++ [newRow]), count := s.count + 1 } }

/- ---------------------------------------------------------------------------
Box registry, app.py version.  caixa_exists there references `nova_bcs`, a name
assigned nowhere in its scope (app.py line 357; only `nova_qrs` is assigned at
line 349).  Because `and` short-circuits, a record whose sorted QR tuple
differs is skipped without evaluating the broken conjunct, while a record whose
sorted QR tuple matches raises NameError, which the enclosing `except` catches,
after which the function returns False.  Either way the scan yields False.
--------------------------------------------------------------------------- -/

/-- Embeds caixa_exists of app.py with the undefined-name behaviour above: the
first record whose sorted QR tuple matches aborts the scan via the caught
NameError and the function returns False; with no such record the loop
completes and also returns False. -/
def caixa_exists_v1 (f : CsvFile) (qr_codes : List String) (_barcodes : List String) : Bool :=
  match f with
  | none => false
  | some [] => false
  | some (hd :: tl) =>
      let nova_qrs := sortStr qr_codes
      match tl.find? (fun r => decide (parseSorted (csvGetD hd r "QRCodes") = nova_qrs)) with
      | some _ => false
      | none => false

/-- Embeds register_caixa of app.py (module-level definition, line 409): same
text as the app2.py version but resolving to app.py's caixa_exists. -/
def register_caixa_v1 (s : RegState) (qr_codes barcodes : List String) : RegResult :=
  let nova_qrs := sortStr qr_codes
  let nova_bcs := sortStr barcodes
  if caixa_exists_v1 s.file nova_qrs nova_bcs then
    { isNew := false, total := s.count, state := s }
  else
    let newRow : Row := (joinBar nova_qrs, joinBar nova_bcs)
    let base : List Row :=
      match s.file with
      | none => [caixasHeader]
      | some [] => [caixasHeader]
      | some rows => rows
    { isNew := true, total := s.count + 1,
      state := { file := some (base ++ [newRow]), count := s.count + 1 } }

/- ---------------------------------------------------------------------------
Registry reads shared by the reconciliation code.
--------------------------------------------------------------------------- -/

/-- The parse `[x for x in s.split('|') if x] if s else []` used by the
registry readers. -/
def splitCodes (s : String) : List String :=
  if s = "" then [] else (splitBar s).filter (fun x => x ≠ "")

/-- Embeds read_all_registered_codes: the set of all stored codes (QRs and
barcodes), empty for a missing file, represented by the deduplicated list. -/
def read_all_registered_codes (f : CsvFile) : List String :=
  match f with
  | none => []
  | some [] => []
  | some (hd :: tl) =>
      (tl.foldl (fun acc r =>
        acc ++ splitCodes (csvGetD hd r "QRCodes")
            ++ splitCodes (csvGetD hd r "Barcodes")) []).dedup

/-- One parsed registry record as produced by read_registered_boxes: the qrs
and bcs lists plus their union as a set (deduplicated list).  The raw string
fields also present in the Python dict are unused by ronda_encerrar and
omitted here. -/
structure BoxParsed where
  qrs : List String
  bcs : List String
  codes : List String
deriving Repr, DecidableEq

/-- Embeds read_registered_boxes (shared text of app.py and app2.py), empty for
a missing file. -/
def read_registered_boxes (f : CsvFile) : List BoxParsed :=
  match f with
  | none => []
  | some [] => []
  | some (hd :: tl) =>
      tl.map (fun r =>
        let qr_list := splitCodes (csvGetD hd r "QRCodes")
        let bc_list := splitCodes (csvGetD hd r "Barcodes")
        { qrs := qr_list, bcs := bc_list, codes := (qr_list ++ bc_list).dedup })

/- ---------------------------------------------------------------------------
Reconciliation, app2.py version (route ronda_encerrar, lines 881-936).
--------------------------------------------------------------------------- -/

/-- A complete or missing box entry of the ronda_encerrar report. -/
structure RondaBoxFound where
  qrs : List String
  bcs : List String
  codes : List String
deriving Repr, DecidableEq

/-- An entry of the intermediate bucket of the ronda_encerrar report (source
key boxes_partial). -/
structure RondaBoxPart where
  qrs : List String
  bcs : List String
  codes_present : List String
  codes_missing : List String
deriving Repr, DecidableEq

/-- The relatorio dict built by ronda_encerrar.  The source key boxes_partial
is rendered here as boxesPart. -/
structure RondaReport where
  total_found : Nat
  total_registered : Nat
  only_found : List String
  only_registered : List String
  common : List String
  boxesFound : List RondaBoxFound
  boxesPart : List RondaBoxPart
  boxesMissing : List RondaBoxFound
deriving Repr, DecidableEq

/-- The complete-bucket test of the ronda_encerrar loop:
`if box_codes and box_codes.issubset(found_codes)`. -/
def rondaFoundEntry (found : List String) (b : BoxParsed) : Option RondaBoxFound :=
  if b.codes ≠ [] ∧ ∀ c ∈ b.codes, c ∈ found then
    some { qrs := b.qrs, bcs := b.bcs, codes := sortedSet b.codes }
  else none

/-- The intermediate-bucket test of the ronda_encerrar loop:
`elif box_codes and (box_codes & found_codes)`. -/
def rondaPartEntry (found : List String) (b : BoxParsed) : Option RondaBoxPart :=
  if ¬ (b.codes ≠ [] ∧ ∀ c ∈ b.codes, c ∈ found) ∧
     (b.codes ≠ [] ∧ ∃ c ∈ b.codes, c ∈ found) then
    some { qrs := b.qrs, bcs := b.bcs
           codes_present := sortedSet (b.codes.filter (fun c => decide (c ∈ found)))
           codes_missing := sortedSet (b.codes.filter (fun c => decide (c ∉ found))) }
  else none

/-- The else branch of the ronda_encerrar loop, reached both by boxes with an
empty code set and by boxes sharing no code with the found set. -/
def rondaMissingEntry (found : List String) (b : BoxParsed) : Option RondaBoxFound :=
  if ¬ (b.codes ≠ [] ∧ ∀ c ∈ b.codes, c ∈ found) ∧
     ¬ (b.codes ≠ [] ∧ ∃ c ∈ b.codes, c ∈ found) then
    some { qrs := b.qrs, bcs := b.bcs, codes := sortedSet b.codes }
  else none

/-- Embeds the report computation of ronda_encerrar in app2.py.  `found` is an
enumeration of the set read from the ledger.  Each registry box lands in
exactly one bucket following the if/elif/else chain: complete when its
non-empty code set is a subset of `found`, the intermediate bucket when the
intersection is non-empty but not everything, and the missing bucket otherwise
(which includes every box whose code set is empty). -/
def ronda_encerrar (found : List String) (caixasFile : CsvFile) : RondaReport :=
  let registered := read_all_registered_codes caixasFile
  let boxes := read_registered_boxes caixasFile
  { total_found := found.dedup.length
    total_registered := registered.length
    only_found := sortedSet (found.filter (fun c => decide (c ∉ registered)))
    only_registered := sortedSet (registered.filter (fun c => decide (c ∉ found)))
    common := sortedSet (found.filter (fun c => decide (c ∈ registered)))
    boxesFound := boxes.filterMap (rondaFoundEntry found)
    boxesPart := boxes.filterMap (rondaPartEntry found)
    boxesMissing := boxes.filterMap (rondaMissingEntry found) }

/- ---------------------------------------------------------------------------
Reconciliation, app.py version (analyze_inventory_report, lines 491-599).
read_registered_boxes there returns dicts keyed qrs/bcs/codes/raw_qrs/raw_bcs,
while analyze_inventory_report looks up the keys QRCodes/Barcodes, which are
absent from those dicts, so every `box.get('QRCodes')` is None.
--------------------------------------------------------------------------- -/

/-- A Python value stored in the box dicts of app.py. -/
inductive PyVal
  | vs (s : String)
  | vl (l : List String)
deriving Repr, DecidableEq

/-- A Python dict with string keys as an insertion-ordered association list. -/
abbrev PyDict := List (String × PyVal)

/-- Python `d.get(k)`. -/
def pyGet (d : PyDict) (k : String) : Option PyVal :=
  match d.find? (fun kv => decide (kv.1 = k)) with
  | some kv => some kv.2
  | none => none

/-- Python `d.get(k, '')` restricted to the string reads analyze performs: a
missing key gives the default `""`.  The keys it asks for are never bound to
list values in these dicts, so the `vl` arm is unreachable there. -/
def pyGetStrD (d : PyDict) (k : String) : String :=
  match pyGet d k with
  | some (PyVal.vs s) => s
  | some (PyVal.vl _) => ""
  | none => ""

/-- Embeds read_registered_boxes as used by app.py, keeping the dict shape:
keys qrs, bcs, codes, raw_qrs, raw_bcs. -/
def read_registered_boxes_dicts (f : CsvFile) : List PyDict :=
  match f with
  | none => []
  | some [] => []
  | some (hd :: tl) =>
      tl.map (fun r =>
        let qrs := csvGetD hd r "QRCodes"
        let bcs := csvGetD hd r "Barcodes"
        let qr_list := splitCodes qrs
        let bc_list := splitCodes bcs
        [ ( "qrs", PyVal.vl qr_list), ( "bcs", PyVal.vl bc_list),
          ( "codes", PyVal.vl ((qr_list ++ bc_list).dedup)),
          ( "raw_qrs", PyVal.vs qrs), ( "raw_bcs", PyVal.vs bcs) ])

/-- The field split of analyze_inventory_report:
`box.get(k, '').split('|') if box.get(k) else []` (note: no empty-segment
filter here, unlike splitCodes). -/
def analyzeSplit (d : PyDict) (k : String) : List String :=
  let v := pyGetStrD d k
  if v = "" then [] else splitBar v

/-- A complete box entry of the analyze_inventory_report output. -/
structure AnalyzeBoxFound where
  qrs : List String
  bcs : List String
  codes : List String
  codes_found : List String
deriving Repr, DecidableEq

/-- An entry of the intermediate bucket of analyze_inventory_report (source key
boxes_partial). -/
structure AnalyzeBoxPart where
  qrs : List String
  bcs : List String
  codes : List String
  codes_present : List String
  codes_missing : List String
deriving Repr, DecidableEq

/-- A box entry of the boxes_missing bucket of analyze_inventory_report. -/
structure AnalyzeBoxMissing where
  qrs : List String
  bcs : List String
  codes : List String
deriving Repr, DecidableEq

/-- The summary sub-dict of the analyze_inventory_report output. -/
structure AnalyzeSummary where
  boxes_complete_count : Nat
  boxes_partial_count : Nat
  boxes_missing_count : Nat
  codes_not_in_inventory : Nat
  codes_not_found : Nat
deriving Repr, DecidableEq

/-- The report dict of analyze_inventory_report.  The source key boxes_partial
is rendered here as boxesPart. -/
structure AnalyzeReport where
  total_found : Nat
  total_registered : Nat
  boxes_found : List AnalyzeBoxFound
  boxesPart : List AnalyzeBoxPart
  boxes_missing : List AnalyzeBoxMissing
  only_found : List String
  only_registered : List String
  summary : AnalyzeSummary
deriving Repr, DecidableEq

/-- Embeds analyze_inventory_report of app.py.  `found` is
`found_codes_list = list(codes_found)`, an enumeration of the found set in the
interpreter's set-iteration order.  The embedding is total: the enclosing
try/except that would zero the report can only fire on I/O faults, which are
outside the model. -/
def analyze_inventory_report (found : List String) (caixasFile : CsvFile) : AnalyzeReport :=
  let registered_boxes := read_registered_boxes_dicts caixasFile
  let all_registered_codes :=
    ((registered_boxes.foldl (fun acc b =>
        acc ++ analyzeSplit b "QRCodes" ++ analyzeSplit b "Barcodes") []).dedup).filter
      (fun c => c ≠ "")
  let withCodes := registered_boxes.filterMap (fun b =>
    let qr_codes := analyzeSplit b "QRCodes"
    let barcodes := analyzeSplit b "Barcodes"
    let box_codes := (qr_codes ++ barcodes).filter (fun c => c.trim ≠ "")
    if box_codes = [] then none
    else some (qr_codes, barcodes, box_codes,
               box_codes.filter (fun c => decide (c ∈ found)),
               box_codes.filter (fun c => decide (c ∉ found))))
  let boxes_complete := withCodes.filterMap (fun t =>
    if t.2.2.2.1.length = t.2.2.1.length ∧ t.2.2.2.1.length > 0 then
      some { qrs := t.1, bcs := t.2.1, codes := t.2.2.1, codes_found := t.2.2.2.1 :
             AnalyzeBoxFound }
    else none)
  let boxesPart := withCodes.filterMap (fun t =>
    if ¬ (t.2.2.2.1.length = t.2.2.1.length ∧ t.2.2.2.1.length > 0) ∧ t.2.2.2.1.length > 0 then
      some { qrs := t.1, bcs := t.2.1, codes := t.2.2.1,
             codes_present := t.2.2.2.1, codes_missing := t.2.2.2.2 : AnalyzeBoxPart }
    else none)
  let boxes_missing := withCodes.filterMap (fun t =>
    if ¬ (t.2.2.2.1.length = t.2.2.1.length ∧ t.2.2.2.1.length > 0) ∧ ¬ t.2.2.2.1.length > 0 then
      some { qrs := t.1, bcs := t.2.1, codes := t.2.2.1 : AnalyzeBoxMissing }
    else none)
  let only_found := found.filter (fun c => decide (c ∉ all_registered_codes))
  let only_registered := all_registered_codes.filter (fun c => decide (c ∉ found))
  { total_found := found.dedup.length
    total_registered := all_registered_codes.length
    boxes_found := boxes_complete
    boxesPart := boxesPart
    boxes_missing := boxes_missing
    only_found := only_found
    only_registered := only_registered
    summary := { boxes_complete_count := boxes_complete.length
                 boxes_partial_count := boxesPart.length
                 boxes_missing_count := boxes_missing.length
                 codes_not_in_inventory := only_found.length
                 codes_not_found := only_registered.length } }

/- ---------------------------------------------------------------------------
Live capture and upload processing (app2.py).
--------------------------------------------------------------------------- -/

/-- One decoded symbol of a frame or image as pyzbar reports it: the UTF-8
payload and the symbology name (the code distinguishes only the value
"QRCODE"). -/
structure DecObj where
  payload : String
  dtype : String
deriving Repr, DecidableEq

/-- An entry of the detection queue consumed by camera_live_poll: either one
newly-recorded code confirmation or one box-registration event.  The wall-clock
timestamp carried by the Python dicts is abstracted away. -/
inductive QItem
  | codeEvt (codigo tipo : String)
  | boxEvt (codes : List String)
deriving Repr, DecidableEq

/-- The mutable state the capture machinery touches: the two persisted files
with the box counter, the worker's seen set (_capture_seen), the detection
queue (_capture_queue), and whether a capture worker is running. -/
structure SysState where
  ledger : CsvFile
  caixas : RegState
  seen : List String
  queue : List QItem
  running : Bool
deriving Repr, DecidableEq

/-- One step of the `frame_codes` accumulation of _capture_loop. -/
def frameStep (acc : List String) (o : DecObj) : List String :=
  if o.payload ≠ "" ∧ o.payload ∉ acc then acc ++ [o.payload] else acc

/-- The `frame_codes` accumulation of _capture_loop: truthy payloads in
decode order, first occurrence only. -/
def frameCodes (decoded : List DecObj) : List String :=
  decoded.foldl frameStep []

/-- The confirmation loop body of _capture_loop: enqueue a detection event for
a newly recorded code not yet in the worker's seen set, then mark it seen. -/
def confirmStep (qr_codes : List String) (s : SysState) (c : String) : SysState :=
  if c ∈ s.seen then s
  else { s with
    queue := s.queue ++
      [QItem.codeEvt c (if c ∈ qr_codes then "QR Code" else "Barcode")]
    seen := s.seen ++ [c] }

/-- Embeds the per-frame body of _capture_loop in app2.py (lines 571-646),
given the decoded objects of one frame: skip empty frames, append new codes to
the ledger, enqueue a confirmation for each newly recorded code not yet seen by
this worker, and, when the frame carries two or more distinct truthy payloads,
attempt a box registration with the frame's codes partitioned by kind, pushing
a box event when the registration was genuinely new.  Preview publication and
the frame decode itself have no modelled state. -/
def capture_loop_frame (decoded : List DecObj) (st : SysState) : SysState :=
  let frame_codes := frameCodes decoded
  if frame_codes = [] then st
  else
    let qr_codes := (decoded.filter (fun o => decide (o.dtype = "QRCODE"))).map DecObj.payload
    let barcodes := (decoded.filter (fun o => decide (o.dtype ≠ "QRCODE"))).map DecObj.payload
    let res := save_unique_codes st.ledger qr_codes barcodes
    let st1 : SysState := { st with ledger := res.file }
    let st2 := res.newList.foldl (confirmStep qr_codes) st1
    let unique_frame_codes := sortStr frame_codes.dedup
    if unique_frame_codes.length ≥ 2 then
      let qr_for_box := unique_frame_codes.filter (fun c => decide (c ∈ qr_codes))
      let bc_for_box := unique_frame_codes.filter (fun c => decide (c ∈ barcodes))
      let r := register_caixa st2.caixas qr_for_box bc_for_box
      let st3 : SysState := { st2 with caixas := r.state }
      if r.isNew then { st3 with queue := st3.queue ++ [QItem.boxEvt unique_frame_codes] }
      else st3
    else st2

/-- Embeds the persistence effects of upload_image in app2.py (lines 975-1019),
given the decoded objects of the uploaded image: with no codes nothing is
written; otherwise the codes are appended to the ledger and, when the image
carries two or more distinct payloads, a box registration is attempted with the
image's QR and barcode lists.  The per-code lookup messages and rendered
template are outputs only and carry no modelled state. -/
def upload_image (detected : List DecObj) (st : SysState) : SysState :=
  let qr_codes := (detected.filter (fun o => decide (o.dtype = "QRCODE"))).map DecObj.payload
  let barcodes := (detected.filter (fun o => decide (o.dtype ≠ "QRCODE"))).map DecObj.payload
  let todos_codigos := qr_codes ++ barcodes
  if todos_codigos = [] then st
  else
    let res := save_unique_codes st.ledger qr_codes barcodes
    let st1 : SysState := { st with ledger := res.file }
    if todos_codigos.dedup.length ≥ 2 then
      let r := register_caixa st1.caixas qr_codes barcodes
      { st1 with caixas := r.state }
    else st1

/-- Embeds the state effect of camera_live_start in app2.py.  With a worker
already alive the request is a no-op success; otherwise, when transport
negotiation succeeded, the launch block (lines 815-822) clears the stop event,
resets _capture_seen to an empty set, destructively clears _capture_queue, and
starts the new worker thread; a failed negotiation returns an error without
touching the state. -/
def camera_live_start (negotiationOk : Bool) (st : SysState) : SysState :=
  if st.running then st
  else if negotiationOk then { st with seen := [], queue := [], running := true }
  else st

/-- Embeds camera_live_poll in app2.py: return the queued detections and clear
the queue under the queue lock. -/
def camera_live_poll (st : SysState) : List QItem × SysState :=
  (st.queue, { st with queue := [] })

/- ---------------------------------------------------------------------------
Facts about the sorting helpers.
--------------------------------------------------------------------------- -/

theorem sortStr_sorted (l : List String) : List.Sorted strLe (sortStr l) :=
  List.sorted_insertionSort strLe l

theorem sortStr_perm (l : List String) : List.Perm (sortStr l) l :=
  List.perm_insertionSort strLe l

theorem mem_sortStr {x : String} {l : List String} : x ∈ sortStr l ↔ x ∈ l :=
  (sortStr_perm l).mem_iff

theorem sortStr_eq_of_perm {l₁ l₂ : List String} (h : List.Perm l₁ l₂) :
    sortStr l₁ = sortStr l₂ :=
  List.eq_of_perm_of_sorted ((sortStr_perm l₁).trans (h.trans (sortStr_perm l₂).symm))
    (sortStr_sorted l₁) (sortStr_sorted l₂)

theorem sortStr_sortStr (l : List String) : sortStr (sortStr l) = sortStr l :=
  List.Sorted.insertionSort_eq (sortStr_sorted l)

theorem sortStr_eq_nil_iff {l : List String} : sortStr l = [] ↔ l = [] := by
  constructor
  · intro h
    have hlen := (sortStr_perm l).length_eq
    rw [h] at hlen
    exact List.length_eq_zero.mp (by simpa using hlen.symm)
  · intro h
    subst h
    rfl

theorem sortedSet_sorted (l : List String) : List.Sorted strLe (sortedSet l) :=
  sortStr_sorted l.dedup

theorem mem_sortedSet {x : String} {l : List String} : x ∈ sortedSet l ↔ x ∈ l := by
  rw [sortedSet, mem_sortStr, List.mem_dedup]

theorem sortedSet_nodup (l : List String) : (sortedSet l).Nodup :=
  ((sortStr_perm l.dedup).nodup_iff).mpr (List.nodup_dedup l)

theorem sortedSet_eq_of_mem_iff {l₁ l₂ : List String} (h : ∀ x, x ∈ l₁ ↔ x ∈ l₂) :
    sortedSet l₁ = sortedSet l₂ := by
  have hperm : List.Perm l₁.dedup l₂.dedup := by
    refine (List.perm_ext_iff_of_nodup (List.nodup_dedup l₁) (List.nodup_dedup l₂)).2 ?_
    intro a
    rw [List.mem_dedup, List.mem_dedup]
    exact h a
  exact sortStr_eq_of_perm hperm

theorem dedup_length_eq_of_mem_iff {l₁ l₂ : List String} (h : ∀ x, x ∈ l₁ ↔ x ∈ l₂) :
    l₁.dedup.length = l₂.dedup.length := by
  have hperm : List.Perm l₁.dedup l₂.dedup := by
    refine (List.perm_ext_iff_of_nodup (List.nodup_dedup l₁) (List.nodup_dedup l₂)).2 ?_
    intro a
    rw [List.mem_dedup, List.mem_dedup]
    exact h a
  exact hperm.length_eq

/- ---------------------------------------------------------------------------
Facts about splitting and joining on the bar separator.
--------------------------------------------------------------------------- -/

theorem splitByBar_ne_nil (cs : List Char) : splitByBar cs ≠ [] := by
  cases cs with
  | nil => simp [splitByBar]
  | cons c rest =>
    simp only [splitByBar]
    match h : splitByBar rest with
    | [] => simp
    | s :: ss =>
      by_cases hc : c = '|' <;> simp [hc]

theorem splitByBar_no_bar {cs : List Char} (h : '|' ∉ cs) : splitByBar cs = [cs] := by
  induction cs with
  | nil => rfl
  | cons c rest ih =>
    have hc : c ≠ '|' := fun hh => h (hh ▸ List.mem_cons_self c rest)
    have hrest : '|' ∉ rest := fun hh => h (List.mem_cons_of_mem c hh)
    simp only [splitByBar, ih hrest, if_neg hc]

theorem splitByBar_append_bar {a : List Char} (rest : List Char) (h : '|' ∉ a) :
    splitByBar (a ++ '|' :: rest) = a :: splitByBar rest := by
  induction a with
  | nil =>
    simp only [List.nil_append, splitByBar]
    match hr : splitByBar rest with
    | [] => exact absurd hr (splitByBar_ne_nil rest)
    | s :: ss => simp
  | cons c a ih =>
    have hc : c ≠ '|' := fun hh => h (hh ▸ List.mem_cons_self c a)
    have ha : '|' ∉ a := fun hh => h (List.mem_cons_of_mem c hh)
    simp only [List.cons_append, splitByBar]
    rw [show splitByBar (a.append ('|' :: rest)) = a :: splitByBar rest from ih ha]
    simp [hc]

theorem string_eq_iff_data {s t : String} : s = t ↔ s.data = t.data := by
  cases s; cases t
  exact ⟨fun h => congrArg String.data h, fun h => congrArg String.mk h⟩

theorem joinBar_data_cons (x y : String) (rest : List String) :
    (joinBar (x :: y :: rest)).data = x.data ++ '|' :: (joinBar (y :: rest)).data := by
  show (x ++ "|" ++ joinBar (y :: rest)).data = _
  rw [String.data_append, String.data_append, List.append_assoc]
  rfl

theorem splitBar_joinBar {l : List String} (hbar : ∀ s ∈ l, '|' ∉ s.data) (hne : l ≠ []) :
    splitBar (joinBar l) = l := by
  induction l with
  | nil => exact absurd rfl hne
  | cons x rest ih =>
    cases rest with
    | nil =>
      have hx : '|' ∉ x.data := hbar x (List.mem_cons_self x [])
      show (splitByBar x.data).map String.mk = [x]
      rw [splitByBar_no_bar hx]
      simp [string_eq_iff_data]
    | cons y rest2 =>
      have hx : '|' ∉ x.data := hbar x (List.mem_cons_self x _)
      have hrest : ∀ s ∈ y :: rest2, '|' ∉ s.data :=
        fun s hs => hbar s (List.mem_cons_of_mem x hs)
      show (splitByBar (joinBar (x :: y :: rest2)).data).map String.mk = x :: y :: rest2
      rw [joinBar_data_cons, splitByBar_append_bar _ hx]
      have := ih hrest (by simp)
      show String.mk x.data :: (splitByBar (joinBar (y :: rest2)).data).map String.mk
          = x :: y :: rest2
      rw [show String.mk x.data = x from (string_eq_iff_data.mpr rfl).symm]
      exact congrArg (x :: ·) this

theorem data_ne_nil_iff {s : String} : s.data ≠ [] ↔ s ≠ "" := by
  rw [not_iff_not]
  exact string_eq_iff_data.symm

theorem joinBar_ne_empty {l : List String} (hne : l ≠ []) (h : ∀ s ∈ l, s.data ≠ []) :
    joinBar l ≠ "" := by
  cases l with
  | nil => exact absurd rfl hne
  | cons x rest =>
    cases rest with
    | nil =>
      exact data_ne_nil_iff.mp (h x (List.mem_cons_self x []))
    | cons y rest2 =>
      rw [Ne, string_eq_iff_data, joinBar_data_cons]
      intro hc
      exact h x (List.mem_cons_self x _) (List.append_eq_nil.mp hc).1

/-- Well-formed payloads round-trip through the registry storage: joining the
sorted list with bars and re-parsing it with parseSorted recovers the sorted
list. -/
theorem parseSorted_joinBar_sortStr {l : List String}
    (hwf : ∀ s ∈ l, s.data ≠ [] ∧ '|' ∉ s.data) :
    parseSorted (joinBar (sortStr l)) = sortStr l := by
  by_cases hl : l = []
  · subst hl
    rfl
  · have hsne : sortStr l ≠ [] := fun h => hl (sortStr_eq_nil_iff.mp h)
    have hwfs : ∀ s ∈ sortStr l, s.data ≠ [] ∧ '|' ∉ s.data :=
      fun s hs => hwf s (mem_sortStr.mp hs)
    have hjne : joinBar (sortStr l) ≠ "" :=
      joinBar_ne_empty hsne (fun s hs => (hwfs s hs).1)
    rw [parseSorted, if_neg hjne, splitBar_joinBar (fun s hs => (hwfs s hs).2) hsne,
      sortStr_sortStr]

/- ---------------------------------------------------------------------------
Facts about the ledger dictionaries.
--------------------------------------------------------------------------- -/

theorem keys_upsert (m : List (String × String)) (k v : String) :
    (upsert m k v).map Prod.fst =
      if k ∈ m.map Prod.fst then m.map Prod.fst else m.map Prod.fst ++ [k] := by
  unfold upsert
  by_cases h : k ∈ m.map Prod.fst
  · rw [if_pos h, if_pos h, List.map_map]
    refine List.map_congr_left ?_
    intro kv _
    by_cases hk : kv.1 = k
    · simp [hk, Function.comp]
    · simp [hk, Function.comp]
  · rw [if_neg h, if_neg h, List.map_append]
    simp

theorem mem_keys_upsert {p : String} (m : List (String × String)) (k v : String) :
    p ∈ (upsert m k v).map Prod.fst ↔ p ∈ m.map Prod.fst ∨ p = k := by
  rw [keys_upsert]
  by_cases h : k ∈ m.map Prod.fst
  · rw [if_pos h]
    constructor
    · exact Or.inl
    · rintro (hp | rfl)
      · exact hp
      · exact h
  · rw [if_neg h]
    simp

theorem nodup_keys_upsert {m : List (String × String)} (k v : String)
    (h : (m.map Prod.fst).Nodup) : ((upsert m k v).map Prod.fst).Nodup := by
  rw [keys_upsert]
  by_cases hk : k ∈ m.map Prod.fst
  · rwa [if_pos hk]
  · rw [if_neg hk]
    exact List.Nodup.append h (List.nodup_singleton k) (by simpa using hk)

theorem loadStep_ledger (m : List (String × String)) (r : Row) :
    loadStep ledgerHeader m r = if r.1 = "" then m else upsert m r.1 r.2 := rfl

theorem mem_keys_load_aux (tl : List Row) (m0 : List (String × String)) (p : String) :
    p ∈ ((tl.foldl (loadStep ledgerHeader) m0).map Prod.fst) ↔
      p ∈ m0.map Prod.fst ∨ (p ∈ tl.map Prod.fst ∧ p ≠ "") := by
  induction tl generalizing m0 with
  | nil => simp
  | cons r rs ih =>
    rw [List.foldl_cons, ih, loadStep_ledger]
    by_cases hr : r.1 = ""
    · rw [if_pos hr]
      simp only [List.map_cons, List.mem_cons]
      constructor
      · rintro (hp | hp)
        · exact Or.inl hp
        · exact Or.inr ⟨Or.inr hp.1, hp.2⟩
      · rintro (hp | ⟨rfl | hp, hne⟩)
        · exact Or.inl hp
        · exact absurd hr hne
        · exact Or.inr ⟨hp, hne⟩
    · rw [if_neg hr, mem_keys_upsert]
      simp only [List.map_cons, List.mem_cons]
      constructor
      · rintro ((hp | rfl) | hp)
        · exact Or.inl hp
        · exact Or.inr ⟨Or.inl rfl, hr⟩
        · exact Or.inr ⟨Or.inr hp.1, hp.2⟩
      · rintro (hp | ⟨rfl | hp, hne⟩)
        · exact Or.inl (Or.inl hp)
        · exact Or.inl (Or.inr rfl)
        · exact Or.inr ⟨hp, hne⟩

/-- Keys of the dict read back from a well-headed ledger file. -/
theorem mem_keys_load {tl : List Row} {p : String} :
    p ∈ (load_existing_codes (some (ledgerHeader :: tl))).map Prod.fst ↔
      p ∈ tl.map Prod.fst ∧ p ≠ "" := by
  show p ∈ ((tl.foldl (loadStep ledgerHeader) []).map Prod.fst) ↔ _
  rw [mem_keys_load_aux]
  simp

theorem mem_keys_mergedQr (qr : List String) (m0 : List (String × String)) (p : String) :
    p ∈ ((qr.foldl mergedQrStep m0).map Prod.fst) ↔
      p ∈ m0.map Prod.fst ∨ (p ∈ qr ∧ p ≠ "") := by
  induction qr generalizing m0 with
  | nil => simp
  | cons q qs ih =>
    rw [List.foldl_cons, ih, mergedQrStep]
    by_cases hq : q = ""
    · rw [if_pos hq]
      subst hq
      constructor
      · rintro (hp | hp)
        · exact Or.inl hp
        · exact Or.inr ⟨List.mem_cons_of_mem _ hp.1, hp.2⟩
      · rintro (hp | ⟨hmem, hne⟩)
        · exact Or.inl hp
        · rcases List.mem_cons.mp hmem with rfl | hp
          · exact absurd rfl hne
          · exact Or.inr ⟨hp, hne⟩
    · rw [if_neg hq, mem_keys_upsert]
      constructor
      · rintro ((hp | rfl) | hp)
        · exact Or.inl hp
        · exact Or.inr ⟨List.mem_cons_self _ _, hq⟩
        · exact Or.inr ⟨List.mem_cons_of_mem _ hp.1, hp.2⟩
      · rintro (hp | ⟨hmem, hne⟩)
        · exact Or.inl (Or.inl hp)
        · rcases List.mem_cons.mp hmem with rfl | hp
          · exact Or.inl (Or.inr rfl)
          · exact Or.inr ⟨hp, hne⟩

theorem nodup_keys_mergedQr (qr : List String) (m0 : List (String × String))
    (h : (m0.map Prod.fst).Nodup) : ((qr.foldl mergedQrStep m0).map Prod.fst).Nodup := by
  induction qr generalizing m0 with
  | nil => exact h
  | cons q qs ih =>
    rw [List.foldl_cons, mergedQrStep]
    by_cases hq : q = ""
    · rw [if_pos hq]
      exact ih m0 h
    · rw [if_neg hq]
      exact ih _ (nodup_keys_upsert q _ h)

theorem allQR_mergedQr (qr : List String) (m0 : List (String × String))
    (h : ∀ pt ∈ m0, pt.2 = "QR Code") :
    ∀ pt ∈ qr.foldl mergedQrStep m0, pt.2 = "QR Code" := by
  induction qr generalizing m0 with
  | nil => exact h
  | cons q qs ih =>
    rw [List.foldl_cons, mergedQrStep]
    by_cases hq : q = ""
    · rw [if_pos hq]
      exact ih m0 h
    · rw [if_neg hq]
      refine ih _ ?_
      intro pt hpt
      unfold upsert at hpt
      by_cases hk : q ∈ m0.map Prod.fst
      · rw [if_pos hk] at hpt
        rcases List.mem_map.mp hpt with ⟨kv, hkv, heq⟩
        by_cases hkq : kv.1 = q
        · rw [if_pos hkq] at heq
          rw [← heq]
        · rw [if_neg hkq] at heq
          exact heq ▸ h kv hkv
      · rw [if_neg hk] at hpt
        rcases List.mem_append.mp hpt with hpt | hpt
        · exact h pt hpt
        · rcases List.mem_singleton.mp hpt with rfl
          rfl

theorem mem_keys_mergedBc (bc : List String) (m0 : List (String × String)) (p : String) :
    p ∈ ((bc.foldl mergedBcStep m0).map Prod.fst) ↔
      p ∈ m0.map Prod.fst ∨ (p ∈ bc ∧ p ≠ "") := by
  induction bc generalizing m0 with
  | nil => simp
  | cons b bs ih =>
    rw [List.foldl_cons, ih, mergedBcStep]
    by_cases hb : b = ""
    · rw [if_pos hb]
      subst hb
      constructor
      · rintro (hp | hp)
        · exact Or.inl hp
        · exact Or.inr ⟨List.mem_cons_of_mem _ hp.1, hp.2⟩
      · rintro (hp | ⟨hmem, hne⟩)
        · exact Or.inl hp
        · rcases List.mem_cons.mp hmem with rfl | hp
          · exact absurd rfl hne
          · exact Or.inr ⟨hp, hne⟩
    · rw [if_neg hb]
      by_cases hbm : b ∈ m0.map Prod.fst
      · rw [if_pos hbm]
        constructor
        · rintro (hp | hp)
          · exact Or.inl hp
          · exact Or.inr ⟨List.mem_cons_of_mem _ hp.1, hp.2⟩
        · rintro (hp | ⟨hmem, hne⟩)
          · exact Or.inl hp
          · rcases List.mem_cons.mp hmem with rfl | hp
            · exact Or.inl hbm
            · exact Or.inr ⟨hp, hne⟩
      · rw [if_neg hbm]
        constructor
        · rintro (hp | hp)
          · rw [List.map_append, List.mem_append] at hp
            rcases hp with hp | hp
            · exact Or.inl hp
            · have hpb : p = b := by simpa using hp
              subst hpb
              exact Or.inr ⟨List.mem_cons_self _ _, hb⟩
          · exact Or.inr ⟨List.mem_cons_of_mem _ hp.1, hp.2⟩
        · rintro (hp | ⟨hmem, hne⟩)
          · rw [List.map_append, List.mem_append]
            exact Or.inl (Or.inl hp)
          · rcases List.mem_cons.mp hmem with rfl | hp
            · rw [List.map_append, List.mem_append]
              exact Or.inl (Or.inr (by simp))
            · exact Or.inr ⟨hp, hne⟩

theorem nodup_keys_mergedBc (bc : List String) (m0 : List (String × String))
    (h : (m0.map Prod.fst).Nodup) : ((bc.foldl mergedBcStep m0).map Prod.fst).Nodup := by
  induction bc generalizing m0 with
  | nil => exact h
  | cons b bs ih =>
    rw [List.foldl_cons, mergedBcStep]
    by_cases hb : b = ""
    · rw [if_pos hb]
      exact ih m0 h
    · rw [if_neg hb]
      by_cases hbm : b ∈ m0.map Prod.fst
      · rw [if_pos hbm]
        exact ih m0 h
      · rw [if_neg hbm]
        refine ih _ ?_
        rw [List.map_append]
        exact List.Nodup.append h (List.nodup_singleton b) (by simpa using hbm)

theorem mem_mergedBc (bc : List String) (m0 : List (String × String)) (pt : String × String)
    (h : pt ∈ bc.foldl mergedBcStep m0) :
    pt ∈ m0 ∨ (pt.2 = "Barcode" ∧ pt.1 ∈ bc ∧ pt.1 ≠ "" ∧ pt.1 ∉ m0.map Prod.fst) := by
  induction bc generalizing m0 with
  | nil => exact Or.inl h
  | cons b bs ih =>
    rw [List.foldl_cons, mergedBcStep] at h
    by_cases hb : b = ""
    · rw [if_pos hb] at h
      rcases ih m0 h with hp | hp
      · exact Or.inl hp
      · exact Or.inr ⟨hp.1, List.mem_cons_of_mem _ hp.2.1, hp.2.2⟩
    · rw [if_neg hb] at h
      by_cases hbm : b ∈ m0.map Prod.fst
      · rw [if_pos hbm] at h
        rcases ih m0 h with hp | hp
        · exact Or.inl hp
        · exact Or.inr ⟨hp.1, List.mem_cons_of_mem _ hp.2.1, hp.2.2⟩
      · rw [if_neg hbm] at h
        rcases ih _ h with hp | hp
        · rcases List.mem_append.mp hp with hp | hp
          · exact Or.inl hp
          · rcases List.mem_singleton.mp hp with rfl
            exact Or.inr ⟨rfl, List.mem_cons_self _ _, hb, hbm⟩
        · refine Or.inr ⟨hp.1, List.mem_cons_of_mem _ hp.2.1, hp.2.2.1, ?_⟩
          intro hc
          exact hp.2.2.2 (by rw [List.map_append]; exact List.mem_append_left _ hc)

/-- Keys of the merged dict: exactly the truthy payloads of the call. -/
theorem mem_keys_merged {qr bc : List String} {p : String} :
    p ∈ (mergedOf qr bc).map Prod.fst ↔ (p ∈ qr ∨ p ∈ bc) ∧ p ≠ "" := by
  rw [mergedOf, mem_keys_mergedBc, mem_keys_mergedQr]
  simp only [List.map_nil, List.not_mem_nil, false_or]
  constructor
  · rintro (⟨hp, hne⟩ | ⟨hp, hne⟩)
    · exact ⟨Or.inl hp, hne⟩
    · exact ⟨Or.inr hp, hne⟩
  · rintro ⟨hp | hp, hne⟩
    · exact Or.inl ⟨hp, hne⟩
    · exact Or.inr ⟨hp, hne⟩

theorem nodup_keys_merged (qr bc : List String) : ((mergedOf qr bc).map Prod.fst).Nodup :=
  nodup_keys_mergedBc bc _ (nodup_keys_mergedQr qr [] List.nodup_nil)

/-- Every entry of the merged dict is either a QR entry for a truthy QR payload
or a barcode entry for a truthy barcode payload that never occurs as a QR. -/
theorem merged_entry {qr bc : List String} {pt : String × String}
    (h : pt ∈ mergedOf qr bc) :
    (pt.2 = "QR Code" ∧ pt.1 ∈ qr ∧ pt.1 ≠ "") ∨
    (pt.2 = "Barcode" ∧ pt.1 ∈ bc ∧ pt.1 ≠ "" ∧ pt.1 ∉ qr) := by
  rcases mem_mergedBc bc _ pt h with hp | hp
  · left
    have hkey : pt.1 ∈ (qr.foldl mergedQrStep []).map Prod.fst :=
      List.mem_map.mpr ⟨pt, hp, rfl⟩
    rw [mem_keys_mergedQr] at hkey
    simp only [List.map_nil, List.not_mem_nil, false_or] at hkey
    exact ⟨allQR_mergedQr qr [] (by simp) pt hp, hkey.1, hkey.2⟩
  · right
    refine ⟨hp.1, hp.2.1, hp.2.2.1, fun hc => ?_⟩
    have : pt.1 ∈ (qr.foldl mergedQrStep []).map Prod.fst := by
      rw [mem_keys_mergedQr]
      simp only [List.map_nil, List.not_mem_nil, false_or]
      exact ⟨hc, hp.2.2.1⟩
    exact hp.2.2.2 this

/- ---------------------------------------------------------------------------
Facts about save_unique_codes on the file level.
--------------------------------------------------------------------------- -/

/-- The data records of a ledger or registry file (everything after the
header). -/
def ledgerRows (f : CsvFile) : List Row :=
  match f with
  | some (_ :: tl) => tl
  | _ => []

theorem newList_save (f : CsvFile) (qr bc : List String) :
    (save_unique_codes f qr bc).newList = (saveAdded f qr bc).map Prod.fst := by
  unfold save_unique_codes
  by_cases h : saveAdded f qr bc = []
  · rw [if_pos h, h]
    rfl
  · rw [if_neg h]

theorem ledgerRows_save (f : CsvFile) (qr bc : List String) :
    ledgerRows (save_unique_codes f qr bc).file = ledgerRows f ++ saveAdded f qr bc := by
  unfold save_unique_codes
  by_cases h : saveAdded f qr bc = []
  · rw [if_pos h, h, List.append_nil]
  · rw [if_neg h]
    match f with
    | none => rfl
    | some [] => rfl
    | some (hd :: tl) => rfl

theorem file_save_of_inv {tl : List Row} (qr bc : List String) :
    (save_unique_codes (some (ledgerHeader :: tl)) qr bc).file =
      some (ledgerHeader :: (tl ++ saveAdded (some (ledgerHeader :: tl)) qr bc)) := by
  unfold save_unique_codes
  by_cases h : saveAdded (some (ledgerHeader :: tl)) qr bc = []
  · rw [if_pos h, h, List.append_nil]
  · rw [if_neg h]
    show some ((ledgerHeader :: tl) ++ saveAdded (some (ledgerHeader :: tl)) qr bc) = _
    rw [List.cons_append]

/-- The well-formedness the ledger enjoys from round start on: the file exists,
starts with the header, and its data records carry pairwise distinct non-empty
payloads. -/
def LedgerInv (f : CsvFile) : Prop :=
  ∃ tl, f = some (ledgerHeader :: tl) ∧ ((tl.map Prod.fst).Nodup) ∧
    ∀ p ∈ tl.map Prod.fst, p ≠ ""

theorem ledgerInv_clear : LedgerInv clear_codigos_encontrados :=
  ⟨[], rfl, List.nodup_nil, by simp⟩

theorem keys_saveAdded_sub {f : CsvFile} {qr bc : List String} {p : String}
    (h : p ∈ (saveAdded f qr bc).map Prod.fst) :
    p ∈ (mergedOf qr bc).map Prod.fst ∧ p ∉ (load_existing_codes f).map Prod.fst := by
  rcases List.mem_map.mp h with ⟨ct, hct, rfl⟩
  have hmem := List.mem_of_mem_filter hct
  have hpred := List.of_mem_filter hct
  rw [decide_eq_true_eq] at hpred
  exact ⟨List.mem_map.mpr ⟨ct, hmem, rfl⟩, hpred⟩

theorem nodup_keys_saveAdded (f : CsvFile) (qr bc : List String) :
    ((saveAdded f qr bc).map Prod.fst).Nodup := by
  have hsub : ((saveAdded f qr bc).map Prod.fst).Sublist ((mergedOf qr bc).map Prod.fst) :=
    (List.filter_sublist (mergedOf qr bc)).map Prod.fst
  exact (nodup_keys_merged qr bc).sublist hsub

theorem ledgerInv_save {f : CsvFile} (qr bc : List String) (h : LedgerInv f) :
    LedgerInv (save_unique_codes f qr bc).file := by
  obtain ⟨tl, rfl, hnd, hne⟩ := h
  refine ⟨tl ++ saveAdded (some (ledgerHeader :: tl)) qr bc, file_save_of_inv qr bc, ?_, ?_⟩
  · rw [List.map_append]
    refine List.Nodup.append hnd (nodup_keys_saveAdded _ qr bc) ?_
    intro p hp hpadd
    have hload : p ∈ (load_existing_codes (some (ledgerHeader :: tl))).map Prod.fst :=
      mem_keys_load.mpr ⟨hp, hne p hp⟩
    exact (keys_saveAdded_sub hpadd).2 hload
  · intro p hp
    rw [List.map_append, List.mem_append] at hp
    rcases hp with hp | hp
    · exact hne p hp
    · exact (mem_keys_merged.mp (keys_saveAdded_sub hp).1).2

/- ---------------------------------------------------------------------------
First-seen kind of a payload in an appendNew call, reading the call's input as
the QR list followed by the barcode list.
--------------------------------------------------------------------------- -/

/-- The kind of the first occurrence of `p` in the call input, the QR sub-list
first, then the barcode sub-list. -/
def firstKindIn (qr bc : List String) (p : String) : Option String :=
  (((qr.map (fun q => (q, "QR Code"))) ++ (bc.map (fun b => (b, "Barcode")))).find?
    (fun ct => decide (ct.1 = p))).map Prod.snd

theorem find?_map_kind {l : List String} (t : String) {p : String} (h : p ∈ l) :
    (l.map (fun q => (q, t))).find? (fun ct => decide (ct.1 = p)) = some (p, t) := by
  induction l with
  | nil => exact absurd h (List.not_mem_nil p)
  | cons q qs ih =>
    by_cases hq : q = p
    · subst hq
      rw [List.map_cons, List.find?_cons_of_pos _ (by simp)]
    · rw [List.map_cons, List.find?_cons_of_neg _ (by simpa using hq)]
      exact ih (by rcases List.mem_cons.mp h with rfl | hh
                   · exact absurd rfl hq
                   · exact hh)

theorem find?_map_kind_none {l : List String} (t : String) {p : String} (h : p ∉ l) :
    (l.map (fun q => (q, t))).find? (fun ct => decide (ct.1 = p)) = none := by
  rw [List.find?_eq_none]
  intro x hx
  rcases List.mem_map.mp hx with ⟨q, hq, rfl⟩
  simp only [decide_eq_true_eq]
  intro hc
  exact h (hc ▸ hq)

theorem firstKindIn_qr {qr bc : List String} {p : String} (h : p ∈ qr) :
    firstKindIn qr bc p = some "QR Code" := by
  rw [firstKindIn, List.find?_append, find?_map_kind _ h]
  rfl

theorem firstKindIn_bc {qr bc : List String} {p : String} (hq : p ∉ qr) (hb : p ∈ bc) :
    firstKindIn qr bc p = some "Barcode" := by
  rw [firstKindIn, List.find?_append, find?_map_kind_none _ hq, find?_map_kind _ hb]
  rfl

/- ---------------------------------------------------------------------------
Facts about the per-frame capture processing.
--------------------------------------------------------------------------- -/

theorem frameCodes_fold_nodup (decoded : List DecObj) (acc : List String) (h : acc.Nodup) :
    (decoded.foldl frameStep acc).Nodup := by
  induction decoded generalizing acc with
  | nil => exact h
  | cons o os ih =>
    rw [List.foldl_cons, frameStep]
    by_cases hc : o.payload ≠ "" ∧ o.payload ∉ acc
    · rw [if_pos hc]
      exact ih _ (List.Nodup.append h (List.nodup_singleton _) (by simpa using hc.2))
    · rw [if_neg hc]
      exact ih _ h

theorem frameCodes_fold_subset (decoded : List DecObj) (acc : List String) (x : String)
    (h : x ∈ decoded.foldl frameStep acc) : x ∈ acc ∨ x ∈ decoded.map DecObj.payload := by
  induction decoded generalizing acc with
  | nil => exact Or.inl h
  | cons o os ih =>
    rw [List.foldl_cons, frameStep] at h
    by_cases hc : o.payload ≠ "" ∧ o.payload ∉ acc
    · rw [if_pos hc] at h
      rcases ih _ h with hx | hx
      · rcases List.mem_append.mp hx with hx | hx
        · exact Or.inl hx
        · rcases List.mem_singleton.mp hx with rfl
          exact Or.inr (List.mem_cons_self _ _)
      · exact Or.inr (List.mem_cons_of_mem _ hx)
    · rw [if_neg hc] at h
      rcases ih _ h with hx | hx
      · exact Or.inl hx
      · exact Or.inr (List.mem_cons_of_mem _ hx)

theorem length_le_one_of_nodup_subset {l m : List String} (hnd : l.Nodup)
    (hsub : ∀ x ∈ l, x ∈ m) (hm : m.dedup.length ≤ 1) : l.length ≤ 1 := by
  match l with
  | [] => simp
  | [x] => simp
  | x :: y :: rest =>
    exfalso
    have hxy : x ≠ y := by
      intro hc
      subst hc
      exact (List.nodup_cons.mp hnd).1 (List.mem_cons_self x rest)
    have hx : x ∈ m.dedup := List.mem_dedup.mpr (hsub x (List.mem_cons_self _ _))
    have hy : y ∈ m.dedup :=
      List.mem_dedup.mpr (hsub y (List.mem_cons_of_mem _ (List.mem_cons_self _ _)))
    match hd : m.dedup with
    | [] =>
      rw [hd] at hx
      exact List.not_mem_nil x hx
    | [a] =>
      rw [hd] at hx hy
      rcases List.mem_singleton.mp hx with rfl
      rcases List.mem_singleton.mp hy with h2
      exact hxy h2.symm
    | a :: b :: tail =>
      rw [hd] at hm
      simp at hm

theorem confirm_fold_caixas (cs : List String) (qr : List String) (s : SysState) :
    (cs.foldl (confirmStep qr) s).caixas = s.caixas := by
  induction cs generalizing s with
  | nil => rfl
  | cons c rest ih =>
    rw [List.foldl_cons]
    rw [ih]
    by_cases h : c ∈ s.seen <;> simp [confirmStep, h]

/- ---------------------------------------------------------------------------
Facts about the ronda_encerrar report.
--------------------------------------------------------------------------- -/

theorem sorted_boxesFound {found : List String} {caixasFile : CsvFile} {b : RondaBoxFound}
    (h : b ∈ (ronda_encerrar found caixasFile).boxesFound) : List.Sorted strLe b.codes := by
  rcases List.mem_filterMap.mp h with ⟨a, _, ha⟩
  unfold rondaFoundEntry at ha
  by_cases hc : a.codes ≠ [] ∧ ∀ c ∈ a.codes, c ∈ found
  · rw [if_pos hc] at ha
    cases Option.some.inj ha
    exact sortedSet_sorted _
  · rw [if_neg hc] at ha
    cases ha

theorem sorted_boxesMissing {found : List String} {caixasFile : CsvFile} {b : RondaBoxFound}
    (h : b ∈ (ronda_encerrar found caixasFile).boxesMissing) : List.Sorted strLe b.codes := by
  rcases List.mem_filterMap.mp h with ⟨a, _, ha⟩
  unfold rondaMissingEntry at ha
  by_cases hc : ¬ (a.codes ≠ [] ∧ ∀ c ∈ a.codes, c ∈ found) ∧
      ¬ (a.codes ≠ [] ∧ ∃ c ∈ a.codes, c ∈ found)
  · rw [if_pos hc] at ha
    cases Option.some.inj ha
    exact sortedSet_sorted _
  · rw [if_neg hc] at ha
    cases ha

theorem sorted_boxesPart {found : List String} {caixasFile : CsvFile} {b : RondaBoxPart}
    (h : b ∈ (ronda_encerrar found caixasFile).boxesPart) :
    List.Sorted strLe b.codes_present ∧ List.Sorted strLe b.codes_missing := by
  rcases List.mem_filterMap.mp h with ⟨a, _, ha⟩
  unfold rondaPartEntry at ha
  by_cases hc : ¬ (a.codes ≠ [] ∧ ∀ c ∈ a.codes, c ∈ found) ∧
      (a.codes ≠ [] ∧ ∃ c ∈ a.codes, c ∈ found)
  · rw [if_pos hc] at ha
    cases Option.some.inj ha
    exact ⟨sortedSet_sorted _, sortedSet_sorted _⟩
  · rw [if_neg hc] at ha
    cases ha

theorem rondaFoundEntry_congr {found found2 : List String} (h : ∀ x, x ∈ found ↔ x ∈ found2)
    (b : BoxParsed) : rondaFoundEntry found b = rondaFoundEntry found2 b := by
  unfold rondaFoundEntry
  refine if_congr (and_congr Iff.rfl ?_) rfl rfl
  exact forall_congr' fun c => imp_congr Iff.rfl (h c)

theorem rondaPartEntry_congr {found found2 : List String} (h : ∀ x, x ∈ found ↔ x ∈ found2)
    (b : BoxParsed) : rondaPartEntry found b = rondaPartEntry found2 b := by
  unfold rondaPartEntry
  have hsub : (∀ c ∈ b.codes, c ∈ found) ↔ ∀ c ∈ b.codes, c ∈ found2 :=
    forall_congr' fun c => imp_congr Iff.rfl (h c)
  have hint : (∃ c ∈ b.codes, c ∈ found) ↔ ∃ c ∈ b.codes, c ∈ found2 :=
    exists_congr fun c => and_congr Iff.rfl (h c)
  refine if_congr (and_congr (not_congr (and_congr Iff.rfl hsub))
    (and_congr Iff.rfl hint)) ?_ rfl
  have hp : b.codes.filter (fun c => decide (c ∈ found)) =
      b.codes.filter (fun c => decide (c ∈ found2)) :=
    List.filter_congr fun c _ => decide_eq_decide.mpr (h c)
  have hm : b.codes.filter (fun c => decide (c ∉ found)) =
      b.codes.filter (fun c => decide (c ∉ found2)) :=
    List.filter_congr fun c _ => decide_eq_decide.mpr (not_congr (h c))
  rw [hp, hm]

theorem rondaMissingEntry_congr {found found2 : List String} (h : ∀ x, x ∈ found ↔ x ∈ found2)
    (b : BoxParsed) : rondaMissingEntry found b = rondaMissingEntry found2 b := by
  unfold rondaMissingEntry
  have hsub : (∀ c ∈ b.codes, c ∈ found) ↔ ∀ c ∈ b.codes, c ∈ found2 :=
    forall_congr' fun c => imp_congr Iff.rfl (h c)
  have hint : (∃ c ∈ b.codes, c ∈ found) ↔ ∃ c ∈ b.codes, c ∈ found2 :=
    exists_congr fun c => and_congr Iff.rfl (h c)
  exact if_congr (and_congr (not_congr (and_congr Iff.rfl hsub))
    (not_congr (and_congr Iff.rfl hint))) rfl rfl

/-- The ronda_encerrar report is a function of the found set alone (and the
registry file): enumeration order does not matter. -/
theorem ronda_encerrar_ext {found found2 : List String} (caixasFile : CsvFile)
    (h : ∀ x, x ∈ found ↔ x ∈ found2) :
    ronda_encerrar found caixasFile = ronda_encerrar found2 caixasFile := by
  unfold ronda_encerrar
  dsimp only
  have hof : sortedSet (found.filter
        (fun c => decide (c ∉ read_all_registered_codes caixasFile))) =
      sortedSet (found2.filter
        (fun c => decide (c ∉ read_all_registered_codes caixasFile))) := by
    refine sortedSet_eq_of_mem_iff fun x => ?_
    simp only [List.mem_filter, decide_eq_true_eq]
    exact and_congr (h x) Iff.rfl
  have hor : (read_all_registered_codes caixasFile).filter (fun c => decide (c ∉ found)) =
      (read_all_registered_codes caixasFile).filter (fun c => decide (c ∉ found2)) :=
    List.filter_congr fun c _ => decide_eq_decide.mpr (not_congr (h c))
  have hco : sortedSet (found.filter
        (fun c => decide (c ∈ read_all_registered_codes caixasFile))) =
      sortedSet (found2.filter
        (fun c => decide (c ∈ read_all_registered_codes caixasFile))) := by
    refine sortedSet_eq_of_mem_iff fun x => ?_
    simp only [List.mem_filter, decide_eq_true_eq]
    exact and_congr (h x) Iff.rfl
  rw [dedup_length_eq_of_mem_iff h, hof, hor, hco,
    List.filterMap_congr (fun b _ => rondaFoundEntry_congr h b),
    List.filterMap_congr (fun b _ => rondaPartEntry_congr h b),
    List.filterMap_congr (fun b _ => rondaMissingEntry_congr h b)]

/- ---------------------------------------------------------------------------
Facts about the app2.py registry operations.
--------------------------------------------------------------------------- -/

theorem csvGetD_caixas_qr (r : Row) : csvGetD caixasHeader r "QRCodes" = r.1 := rfl

theorem csvGetD_caixas_bc (r : Row) : csvGetD caixasHeader r "Barcodes" = r.2 := rfl

theorem caixa_exists_congr (f : CsvFile) {a a2 b b2 : List String}
    (ha : sortStr a = sortStr a2) (hb : sortStr b = sortStr b2) :
    caixa_exists f a b = caixa_exists f a2 b2 := by
  match f with
  | none => rfl
  | some [] => rfl
  | some (hd :: tl) =>
    show tl.any _ = tl.any _
    rw [ha, hb]

theorem caixa_exists_of_mem {hd : Row} {tl : List Row} {r : Row} {a b : List String}
    (hmem : r ∈ tl) (h1 : parseSorted (csvGetD hd r "QRCodes") = sortStr a)
    (h2 : parseSorted (csvGetD hd r "Barcodes") = sortStr b) :
    caixa_exists (some (hd :: tl)) a b = true := by
  show tl.any _ = true
  rw [List.any_eq_true]
  exact ⟨r, hmem, by rw [h1, h2]; simp⟩

/- ---------------------------------------------------------------------------
Case lemmas for register_caixa.
--------------------------------------------------------------------------- -/

theorem register_caixa_of_true {s : RegState} {qr bc : List String}
    (h : caixa_exists s.file (sortStr qr) (sortStr bc) = true) :
    register_caixa s qr bc = { isNew := false, total := s.count, state := s } := by
  unfold register_caixa
  dsimp only
  rw [if_pos h]

theorem register_caixa_of_false {s : RegState} {qr bc : List String}
    (h : caixa_exists s.file (sortStr qr) (sortStr bc) = false) :
    register_caixa s qr bc =
      { isNew := true, total := s.count + 1,
        state := { file := some ((match s.file with
                      | none => [caixasHeader]
                      | some [] => [caixasHeader]
                      | some rows => rows) ++
                    [(joinBar (sortStr qr), joinBar (sortStr bc))])
                   count := s.count + 1 } } := by
  unfold register_caixa
  dsimp only
  rw [if_neg (by rw [h]; exact Bool.false_ne_true)]

/-- A genuinely new registration on a well-headed (or absent) registry leaves a
file that starts with the registry header and contains the bar-joined sorted
pair as a record. -/
theorem register_file_mem {s : RegState} {qr bc : List String}
    (hex : caixa_exists s.file (sortStr qr) (sortStr bc) = false)
    (hhd : s.file = none ∨ s.file = some [] ∨ ∃ tl, s.file = some (caixasHeader :: tl)) :
    ∃ tl2, (register_caixa s qr bc).state.file = some (caixasHeader :: tl2) ∧
      (joinBar (sortStr qr), joinBar (sortStr bc)) ∈ tl2 := by
  rw [register_caixa_of_false hex]
  dsimp only
  rcases hhd with hf | hf | ⟨tl, hf⟩
  · rw [hf]
    exact ⟨[(joinBar (sortStr qr), joinBar (sortStr bc))], rfl, List.mem_singleton_self _⟩
  · rw [hf]
    exact ⟨[(joinBar (sortStr qr), joinBar (sortStr bc))], rfl, List.mem_singleton_self _⟩
  · rw [hf]
    exact ⟨tl ++ [(joinBar (sortStr qr), joinBar (sortStr bc))], rfl,
      List.mem_append_right _ (List.mem_singleton_self _)⟩

/- ---------------------------------------------------------------------------
Claim theorems.
--------------------------------------------------------------------------- -/

/-- C1: the claim says calling register twice with the same code-set lists
yields isNew = false on the second call with the counter unchanged.  app.py
violates this: its caixa_exists compares against the unassigned name nova_bcs,
so the lookup always reports False (the NameError raised on a QR-tuple match is
caught and turned into False), and the second identical call registers the pair
again and bumps the durable counter from 1 to 2.  The app2.py version of the
same pair of functions behaves exactly as the claim states on the same input,
showing the intent the app.py code missed. -/
theorem C1_app1_register_twice_counts_again :
    (register_caixa_v1 (register_caixa_v1 { file := none, count := 0 } [ "A" ] [ "B" ]).state
        [ "A" ] [ "B" ]).isNew = true ∧
    (register_caixa_v1 (register_caixa_v1 { file := none, count := 0 } [ "A" ] [ "B" ]).state
        [ "A" ] [ "B" ]).total = 2 ∧
    (register_caixa (register_caixa { file := none, count := 0 } [ "A" ] [ "B" ]).state
        [ "A" ] [ "B" ]).isNew = false ∧
    (register_caixa (register_caixa { file := none, count := 0 } [ "A" ] [ "B" ]).state
        [ "A" ] [ "B" ]).total = 1 := by decide

/-- C2: the claim states the complete/partial/missing trichotomy for boxes with
a non-empty code set and that empty-code boxes land in no bucket.  app.py's
analyze_inventory_report violates the trichotomy: it reads the keys
QRCodes/Barcodes from box dicts that read_registered_boxes keys as qrs/bcs, so
every box parses as codeless and is skipped — here a registered box whose full
code set is contained in the found set lands in no bucket instead of the
complete one.  app2.py's ronda_encerrar additionally places a box with an empty
code set in the missing bucket instead of excluding it. -/
theorem C2_bucket_divergence :
    read_registered_boxes (some [caixasHeader, ( "A|B", "")]) =
      [ { qrs := [ "A", "B" ], bcs := [], codes := [ "A", "B" ] } ] ∧
    (analyze_inventory_report [ "A", "B" ]
        (some [caixasHeader, ( "A|B", "")])).boxes_found = [] ∧
    (analyze_inventory_report [ "A", "B" ]
        (some [caixasHeader, ( "A|B", "")])).boxesPart = [] ∧
    (analyze_inventory_report [ "A", "B" ]
        (some [caixasHeader, ( "A|B", "")])).boxes_missing = [] ∧
    (ronda_encerrar [ "A" ] (some [caixasHeader, ( "", "")])).boxesMissing =
      [ { qrs := [], bcs := [], codes := [] } ] := by decide

/-- C3: on the spec's worked example (boxes qr [A,B]/bc [] and qr [C]/bc [D],
found set A,B,C) app2.py's ronda_encerrar produces exactly the expected report:
box one complete, box two in the intermediate bucket with present [C] and
missing [D], only_found empty and only_registered [D].  app.py's
analyze_inventory_report on the same input produces none of it — no box in any
bucket, only_registered empty and every found code in only_found — because of
the qrs/QRCodes key mismatch. -/
theorem C3_example_reports :
    ronda_encerrar [ "A", "B", "C" ] (some [caixasHeader, ( "A|B", ""), ( "C", "D")]) =
      { total_found := 3, total_registered := 4, only_found := [],
        only_registered := [ "D" ], common := [ "A", "B", "C" ]
        boxesFound := [ { qrs := [ "A", "B" ], bcs := [], codes := [ "A", "B" ] } ]
        boxesPart := [ { qrs := [ "C" ], bcs := [ "D" ]
                         codes_present := [ "C" ], codes_missing := [ "D" ] } ]
        boxesMissing := [] } ∧
    (analyze_inventory_report [ "A", "B", "C" ]
        (some [caixasHeader, ( "A|B", ""), ( "C", "D")])).boxes_found = [] ∧
    (analyze_inventory_report [ "A", "B", "C" ]
        (some [caixasHeader, ( "A|B", ""), ( "C", "D")])).boxesPart = [] ∧
    (analyze_inventory_report [ "A", "B", "C" ]
        (some [caixasHeader, ( "A|B", ""), ( "C", "D")])).only_registered = [] ∧
    (analyze_inventory_report [ "A", "B", "C" ]
        (some [caixasHeader, ( "A|B", ""), ( "C", "D")])).only_found =
      [ "A", "B", "C" ] := by decide

/-- C4 counterexample: the claim as stated quantifies over every registered
pair, but a payload containing the storage separator breaks the identity: the
pair (qr [a|b], bc [c]) is registered, yet re-registering it with the identity
permutation of each sub-list yields isNew = true and a bumped counter, because
the stored cell a|b re-parses as the two codes a and b. -/
theorem C4_order_independence_cex :
    (register_caixa (register_caixa { file := none, count := 0 } [ "a|b" ] [ "c" ]).state
        [ "a|b" ] [ "c" ]).isNew = true ∧
    (register_caixa (register_caixa { file := none, count := 0 } [ "a|b" ] [ "c" ]).state
        [ "a|b" ] [ "c" ]).total = 2 := by decide

/-- C4 (amended): for payloads that are non-empty and free of the bar
separator, registering a pair and then calling register again with each
sub-list arbitrarily permuted yields isNew = false and leaves the registry
state unchanged (the registry file being absent, empty, or headed by its own
header); and moving a payload from the QR sub-list to the barcode sub-list
does produce a distinct box: after registering (qr [a,b], bc []), registering
(qr [a], bc [b]) yields isNew = true. -/
theorem C4_order_independence_amended (s : RegState) (qr bc qr2 bc2 : List String)
    (hwf : ∀ p ∈ qr ++ bc, p.data ≠ [] ∧ '|' ∉ p.data)
    (hhd : s.file = none ∨ s.file = some [] ∨ ∃ tl, s.file = some (caixasHeader :: tl))
    (hq : List.Perm qr2 qr) (hb : List.Perm bc2 bc) :
    ((register_caixa (register_caixa s qr bc).state qr2 bc2).isNew = false ∧
     (register_caixa (register_caixa s qr bc).state qr2 bc2).state =
       (register_caixa s qr bc).state) ∧
    (register_caixa (register_caixa { file := none, count := 0 } [ "a", "b" ] []).state
        [ "a" ] [ "b" ]).isNew = true := by
  refine ⟨?_, by decide⟩
  have hwq : ∀ p ∈ qr, p.data ≠ [] ∧ '|' ∉ p.data :=
    fun p hp => hwf p (List.mem_append_left _ hp)
  have hwb : ∀ p ∈ bc, p.data ≠ [] ∧ '|' ∉ p.data :=
    fun p hp => hwf p (List.mem_append_right _ hp)
  have hsq : sortStr qr2 = sortStr qr := sortStr_eq_of_perm hq
  have hsb : sortStr bc2 = sortStr bc := sortStr_eq_of_perm hb
  by_cases hex : caixa_exists s.file (sortStr qr) (sortStr bc) = true
  · rw [register_caixa_of_true hex]
    have hex2 : caixa_exists s.file (sortStr qr2) (sortStr bc2) = true := by
      rw [@caixa_exists_congr s.file (sortStr qr2) (sortStr qr) (sortStr bc2) (sortStr bc)
        (by rw [sortStr_sortStr, sortStr_sortStr, hsq])
        (by rw [sortStr_sortStr, sortStr_sortStr, hsb])]
      exact hex
    rw [register_caixa_of_true hex2]
    exact ⟨rfl, rfl⟩
  · rw [Bool.not_eq_true] at hex
    obtain ⟨tl2, hfile, hmem⟩ := register_file_mem hex hhd
    have hps1 : parseSorted (csvGetD caixasHeader
        (joinBar (sortStr qr), joinBar (sortStr bc)) "QRCodes") = sortStr (sortStr qr2) := by
      rw [csvGetD_caixas_qr]
      show parseSorted (joinBar (sortStr qr)) = _
      rw [parseSorted_joinBar_sortStr hwq, sortStr_sortStr, hsq]
    have hps2 : parseSorted (csvGetD caixasHeader
        (joinBar (sortStr qr), joinBar (sortStr bc)) "Barcodes") = sortStr (sortStr bc2) := by
      rw [csvGetD_caixas_bc]
      show parseSorted (joinBar (sortStr bc)) = _
      rw [parseSorted_joinBar_sortStr hwb, sortStr_sortStr, hsb]
    have hex2 : caixa_exists (register_caixa s qr bc).state.file
        (sortStr qr2) (sortStr bc2) = true := by
      rw [hfile]
      exact caixa_exists_of_mem hmem hps1 hps2
    rw [register_caixa_of_true hex2]
    exact ⟨rfl, rfl⟩

/-- Witness for C4: concrete permuted re-registration of (qr [q2,q1], bc [b1])
starting from no registry file. -/
theorem C4_order_independence_amended_witness :
    ((register_caixa (register_caixa { file := none, count := 0 } [ "q2", "q1" ] [ "b1" ]).state
        [ "q1", "q2" ] [ "b1" ]).isNew = false ∧
     (register_caixa (register_caixa { file := none, count := 0 } [ "q2", "q1" ] [ "b1" ]).state
        [ "q1", "q2" ] [ "b1" ]).state =
       (register_caixa { file := none, count := 0 } [ "q2", "q1" ] [ "b1" ]).state) ∧
    (register_caixa (register_caixa { file := none, count := 0 } [ "a", "b" ] []).state
        [ "a" ] [ "b" ]).isNew = true :=
  C4_order_independence_amended { file := none, count := 0 } [ "q2", "q1" ] [ "b1" ]
    [ "q1", "q2" ] [ "b1" ] (by decide) (Or.inl rfl) (by decide) (by decide)

/-- C5: a detection batch (one capture-loop frame or one uploaded image)
carrying at most one distinct payload — in particular exactly one, however
novel — leaves the box registry file and the registration counter untouched: a
registration is attempted only when the batch has two or more distinct codes.
The ledger may still record the code; the box store and counter cannot
change. -/
theorem C5_single_code_no_registration (decoded detected : List DecObj) (st st2 : SysState)
    (h1 : (decoded.map DecObj.payload).dedup.length ≤ 1)
    (h2 : (detected.map DecObj.payload).dedup.length ≤ 1) :
    (capture_loop_frame decoded st).caixas = st.caixas ∧
    (upload_image detected st2).caixas = st2.caixas := by
  constructor
  · by_cases hfc : frameCodes decoded = []
    · unfold capture_loop_frame
      dsimp only
      rw [if_pos hfc]
    · have hnd : (frameCodes decoded).Nodup := frameCodes_fold_nodup decoded [] List.nodup_nil
      have hsub : ∀ x ∈ frameCodes decoded, x ∈ decoded.map DecObj.payload := fun x hx =>
        (frameCodes_fold_subset decoded [] x hx).resolve_left (List.not_mem_nil x)
      have hlen : (frameCodes decoded).length ≤ 1 :=
        length_le_one_of_nodup_subset hnd hsub h1
      have hlen2 : (sortStr (frameCodes decoded).dedup).length ≤ 1 := by
        rw [(sortStr_perm (frameCodes decoded).dedup).length_eq]
        exact le_trans ((frameCodes decoded).dedup_sublist.length_le) hlen
      have hlt : ¬ (sortStr (frameCodes decoded).dedup).length ≥ 2 := by omega
      unfold capture_loop_frame
      dsimp only
      rw [if_neg hfc, if_neg hlt, confirm_fold_caixas]
  · set qrs := (detected.filter (fun o => decide (o.dtype = "QRCODE"))).map DecObj.payload
      with hqrs
    set bcs := (detected.filter (fun o => decide (o.dtype ≠ "QRCODE"))).map DecObj.payload
      with hbcs
    have hmem : ∀ x, x ∈ qrs ++ bcs ↔ x ∈ detected.map DecObj.payload := by
      intro x
      constructor
      · intro hx
        rcases List.mem_append.mp hx with hx | hx
        · rcases List.mem_map.mp hx with ⟨o, ho, rfl⟩
          exact List.mem_map.mpr ⟨o, List.mem_of_mem_filter ho, rfl⟩
        · rcases List.mem_map.mp hx with ⟨o, ho, rfl⟩
          exact List.mem_map.mpr ⟨o, List.mem_of_mem_filter ho, rfl⟩
      · intro hx
        rcases List.mem_map.mp hx with ⟨o, ho, rfl⟩
        by_cases hq : o.dtype = "QRCODE"
        · refine List.mem_append_left _ (List.mem_map.mpr ⟨o, ?_, rfl⟩)
          exact List.mem_filter.mpr ⟨ho, by simpa using hq⟩
        · refine List.mem_append_right _ (List.mem_map.mpr ⟨o, ?_, rfl⟩)
          exact List.mem_filter.mpr ⟨ho, by simpa using hq⟩
    have hlen : (qrs ++ bcs).dedup.length ≤ 1 := by
      rw [dedup_length_eq_of_mem_iff hmem]
      exact h2
    have hlt : ¬ (qrs ++ bcs).dedup.length ≥ 2 := by omega
    by_cases ht : qrs ++ bcs = []
    · unfold upload_image
      dsimp only
      rw [if_pos ht]
    · unfold upload_image
      dsimp only
      rw [if_neg ht, if_neg hlt]

/-- A fresh system state used by the C5 and C10 witnesses (for C10, with the
worker not running and stale queue and seen content). -/
def witnessState : SysState :=
  { ledger := none, caixas := { file := none, count := 0 },
    seen := [ "stale" ], queue := [QItem.codeEvt "stale" "Barcode"], running := false }

/-- The single-payload batch used by the C5 witness: one payload decoded twice,
once as a QR and once as a barcode. -/
def witnessBatch : List DecObj :=
  [ { payload := "X", dtype := "QRCODE" }, { payload := "X", dtype := "CODE128" } ]

/-- Witness for C5: a frame and an image each decoding the same single payload
twice, once as a QR and once as a barcode, processed from a fresh state. -/
theorem C5_single_code_no_registration_witness :
    (capture_loop_frame witnessBatch witnessState).caixas = witnessState.caixas ∧
    (upload_image witnessBatch witnessState).caixas = witnessState.caixas :=
  C5_single_code_no_registration witnessBatch witnessBatch witnessState witnessState
    (by decide) (by decide)

/-- C6: starting from the round-start clear (header-only ledger), any sequence
of appendNew (save_unique_codes) calls leaves a ledger whose data records carry
pairwise distinct payloads — no payload appears twice within one round. -/
theorem C6_ledger_nodup (calls : List (List String × List String)) :
    ((ledgerRows (calls.foldl (fun f qb => (save_unique_codes f qb.1 qb.2).file)
        clear_codigos_encontrados)).map Prod.fst).Nodup := by
  have main : ∀ (cs : List (List String × List String)) (f : CsvFile), LedgerInv f →
      LedgerInv (cs.foldl (fun f qb => (save_unique_codes f qb.1 qb.2).file) f) := by
    intro cs
    induction cs with
    | nil => exact fun f hf => hf
    | cons c rest ih =>
      intro f hf
      rw [List.foldl_cons]
      exact ih _ (ledgerInv_save c.1 c.2 hf)
  obtain ⟨tl, heq, hnd, _⟩ := main calls _ ledgerInv_clear
  rw [heq]
  exact hnd

/-- C7: payloads already present in the ledger dictionary are silently ignored
by save_unique_codes (they never appear in the returned new list), and every
record the call writes carries the kind of the first occurrence of its payload
in the call's input, the QR sub-list read first, then the barcode sub-list —
so a payload passed in both sub-lists is recorded as a QR Code. -/
theorem C7_first_seen_kind (f : CsvFile) (qr bc : List String) :
    (∀ p, p ∈ (load_existing_codes f).map Prod.fst →
        p ∉ (save_unique_codes f qr bc).newList) ∧
    (∀ p t, (p, t) ∈ ledgerRows (save_unique_codes f qr bc).file →
        (p, t) ∈ ledgerRows f ∨ firstKindIn qr bc p = some t) := by
  constructor
  · intro p hp hmem
    rw [newList_save] at hmem
    exact (keys_saveAdded_sub hmem).2 hp
  · intro p t hmem
    rw [ledgerRows_save] at hmem
    rcases List.mem_append.mp hmem with hmem | hmem
    · exact Or.inl hmem
    · right
      have hm : (p, t) ∈ mergedOf qr bc := List.mem_of_mem_filter hmem
      rcases merged_entry hm with ⟨ht, hq, _⟩ | ⟨ht, hb, _, hnq⟩
      · rw [show t = "QR Code" from ht]
        exact firstKindIn_qr hq
      · rw [show t = "Barcode" from ht]
        exact firstKindIn_bc hnq hb

/-- Witness for C7: a ledger already holding old, a call passing dup as both a
QR and a barcode plus new as a barcode; old is not re-added, and the record
written for dup carries the QR kind of its first occurrence. -/
theorem C7_first_seen_kind_witness :
    ( "old" ∉ (save_unique_codes (some [ledgerHeader, ( "old", "QR Code")])
        [ "dup" ] [ "dup", "new" ]).newList) ∧
    firstKindIn [ "dup" ] [ "dup", "new" ] "dup" = some "QR Code" :=
  ⟨(C7_first_seen_kind (some [ledgerHeader, ( "old", "QR Code")])
      [ "dup" ] [ "dup", "new" ]).1 "old" (by decide),
   ((C7_first_seen_kind (some [ledgerHeader, ( "old", "QR Code")])
      [ "dup" ] [ "dup", "new" ]).2 "dup" "QR Code" (by decide)).resolve_left (by decide)⟩

/-- C8 counterexample: the claim covers analyze_inventory_report, whose
only_found list is emitted in the found set's enumeration order: enumerating
the same two-element set as B then A produces only_found = [B, A], which is not
sorted, and a report different from the one for the enumeration A then B, so
neither sortedness nor determinism over identical set inputs holds there. -/
theorem C8_sorted_cex :
    (analyze_inventory_report [ "B", "A" ] none).only_found = [ "B", "A" ] ∧
    ¬ List.Sorted strLe [ "B", "A" ] ∧
    List.Perm ([ "B", "A" ] : List String) [ "A", "B" ] ∧
    analyze_inventory_report [ "B", "A" ] none ≠
      analyze_inventory_report [ "A", "B" ] none := by decide

/-- C8 (amended): for app2.py's ronda_encerrar the claim holds as stated: the
only_found, only_registered and common lists and the per-box codes,
codes_present and codes_missing lists of the report are sorted, and the whole
report depends only on the membership of the found enumeration, so two runs on
identical found-set and registry inputs produce identical reports.  app.py's
analyze_inventory_report instead emits only_found and only_registered in
set-enumeration order, unsorted and enumeration-dependent. -/
theorem C8_sorted_deterministic_amended (found found2 : List String) (caixasFile : CsvFile)
    (h : ∀ x, x ∈ found ↔ x ∈ found2) :
    List.Sorted strLe (ronda_encerrar found caixasFile).only_found ∧
    List.Sorted strLe (ronda_encerrar found caixasFile).only_registered ∧
    List.Sorted strLe (ronda_encerrar found caixasFile).common ∧
    (∀ b ∈ (ronda_encerrar found caixasFile).boxesFound, List.Sorted strLe b.codes) ∧
    (∀ b ∈ (ronda_encerrar found caixasFile).boxesPart,
        List.Sorted strLe b.codes_present ∧ List.Sorted strLe b.codes_missing) ∧
    (∀ b ∈ (ronda_encerrar found caixasFile).boxesMissing, List.Sorted strLe b.codes) ∧
    ronda_encerrar found caixasFile = ronda_encerrar found2 caixasFile :=
  ⟨sortedSet_sorted _, sortedSet_sorted _, sortedSet_sorted _,
    fun _ hb => sorted_boxesFound hb, fun _ hb => sorted_boxesPart hb,
    fun _ hb => sorted_boxesMissing hb, ronda_encerrar_ext caixasFile h⟩

/-- Witness for C8: two enumerations of the same found set against a one-box
registry. -/
theorem C8_sorted_deterministic_amended_witness :
    List.Sorted strLe (ronda_encerrar [ "b", "a" ]
      (some [caixasHeader, ( "x", "y|z")])).only_found ∧
    List.Sorted strLe (ronda_encerrar [ "b", "a" ]
      (some [caixasHeader, ( "x", "y|z")])).only_registered ∧
    List.Sorted strLe (ronda_encerrar [ "b", "a" ]
      (some [caixasHeader, ( "x", "y|z")])).common ∧
    (∀ b ∈ (ronda_encerrar [ "b", "a" ]
      (some [caixasHeader, ( "x", "y|z")])).boxesFound, List.Sorted strLe b.codes) ∧
    (∀ b ∈ (ronda_encerrar [ "b", "a" ]
      (some [caixasHeader, ( "x", "y|z")])).boxesPart,
        List.Sorted strLe b.codes_present ∧ List.Sorted strLe b.codes_missing) ∧
    (∀ b ∈ (ronda_encerrar [ "b", "a" ]
      (some [caixasHeader, ( "x", "y|z")])).boxesMissing, List.Sorted strLe b.codes) ∧
    ronda_encerrar [ "b", "a" ] (some [caixasHeader, ( "x", "y|z")]) =
      ronda_encerrar [ "a", "b" ] (some [caixasHeader, ( "x", "y|z")]) :=
  C8_sorted_deterministic_amended [ "b", "a" ] [ "a", "b" ]
    (some [caixasHeader, ( "x", "y|z")])
    (fun x => by
      simp only [List.mem_cons, List.not_mem_nil, or_false]
      exact or_comm)

/-- C9: every persisted read is total on a missing file — the ledger read and
the registry box read both return the empty set or list rather than raising —
and save_unique_codes on a missing or empty ledger file creates the file with
the header record written before the appended data records (when the call
carries nothing new to add, it leaves the file untouched). -/
theorem C9_reads_total_header_created (qr bc : List String) :
    read_codigos_encontrados none = [] ∧
    read_registered_boxes none = [] ∧
    read_all_registered_codes none = [] ∧
    (save_unique_codes none qr bc).file =
      (if mergedOf qr bc = [] then none
       else some (ledgerHeader :: mergedOf qr bc)) ∧
    (save_unique_codes (some []) qr bc).file =
      (if mergedOf qr bc = [] then some []
       else some (ledgerHeader :: mergedOf qr bc)) := by
  have hadd1 : saveAdded none qr bc = mergedOf qr bc := by
    unfold saveAdded
    refine List.filter_eq_self.mpr ?_
    intro a _
    simp [load_existing_codes]
  have hadd2 : saveAdded (some []) qr bc = mergedOf qr bc := by
    unfold saveAdded
    refine List.filter_eq_self.mpr ?_
    intro a _
    simp [load_existing_codes]
  refine ⟨rfl, rfl, rfl, ?_, ?_⟩
  · unfold save_unique_codes
    dsimp only
    rw [hadd1]
    by_cases hm : mergedOf qr bc = []
    · rw [if_pos hm, if_pos hm]
    · rw [if_neg hm, if_neg hm]
      rfl
  · unfold save_unique_codes
    dsimp only
    rw [hadd2]
    by_cases hm : mergedOf qr bc = []
    · rw [if_pos hm, if_pos hm]
    · rw [if_neg hm, if_neg hm]
      rfl

/-- C10: a camera_live_start that actually launches a worker (none running,
negotiation successful) resets the seen set to empty and destructively clears
the detection queue before the loop starts; a poll right after the start
returns nothing, and the post-start state is independent of whatever queue and
seen content the previous session had left, so unpolled events of that session
are never delivered. -/
theorem C10_start_resets (st : SysState) (h : st.running = false) :
    (camera_live_start true st).seen = [] ∧
    (camera_live_start true st).queue = [] ∧
    (camera_live_poll (camera_live_start true st)).1 = [] ∧
    ∀ q sn, camera_live_start true { st with queue := q, seen := sn } =
      camera_live_start true st := by
  refine ⟨?_, ?_, ?_, fun q sn => ?_⟩ <;>
    simp [camera_live_start, camera_live_poll, h]

/-- Witness for C10: starting from an idle state that still carries a stale
seen entry and a stale queued detection. -/
theorem C10_start_resets_witness :
    (camera_live_start true witnessState).seen = [] ∧
    (camera_live_start true witnessState).queue = [] ∧
    (camera_live_poll (camera_live_start true witnessState)).1 = [] ∧
    ∀ q sn, camera_live_start true { witnessState with queue := q, seen := sn } =
      camera_live_start true witnessState :=
  C10_start_resets witnessState rfl
